import Mathlib

set_option maxHeartbeats 1000000

/-!
Shallow embedding of the SQLite store of the todo repository
(internal/storage/sqlite, internal/models) and proofs of the
claims the specification makes about it.

The store is modelled as an explicit state (lists of project and task
rows, auto-increment counters, a logical clock standing for
CURRENT_TIMESTAMP).  Each repository operation is a pure function from
the state to a result paired with the next state; an operation that
returns an error leaves the state it was given.  Randomness in
`randomPaletteColor` is abstracted as an index argument.  The SQLite
schema constraints relevant to the claims — UNIQUE(projects.name),
FOREIGN KEY(tasks.project_id) ON DELETE CASCADE — are modelled where the
corresponding statement would enforce them.
-/

namespace Todo

/-- From models.ValidTaskStatuses: the statuses supported by the board columns. -/
def validTaskStatus (s : String) : Bool :=
  s == "todo" || s == "in_progress" || s == "done"

/-- Models strings.TrimSpace: drops leading and trailing whitespace from a
string (written by structural recursion over the character list so that it
evaluates inside the kernel). -/
def trimSpace (s : String) : String :=
  ⟨((s.data.dropWhile Char.isWhitespace).reverse.dropWhile Char.isWhitespace).reverse⟩

/-- A row of the projects table (models.Project). -/
structure Project where
  id : Int
  name : String
  color : String
  createdAt : Nat
  updatedAt : Nat
deriving DecidableEq

/-- A row of the tasks table (models.Task). -/
structure Task where
  id : Int
  projectID : Int
  title : String
  description : String
  status : String
  position : Int
  createdAt : Nat
  updatedAt : Nat
deriving DecidableEq

/-- The database state behind sqlite.Store. -/
structure Store where
  projects : List Project
  tasks : List Task
  nextProjectID : Int
  nextTaskID : Int
  clock : Nat
deriving DecidableEq

/-- The state right after migrate() on a fresh database. -/
def initStore : Store :=
  { projects := [], tasks := [], nextProjectID := 1, nextTaskID := 1, clock := 0 }

/-- Error kinds surfaced by the store operations. -/
inductive Err where
  | validationError (msg : String)
  | conflictError (msg : String)
  | notFoundError (msg : String)
  | storageError (msg : String)
deriving DecidableEq

/-- The fixed 7-entry color palette from randomPaletteColor. -/
def palette : List String :=
  ["#2563eb", "#7c3aed", "#dc2626", "#059669", "#ea580c", "#d97706", "#0ea5e9"]

/-- Models randomPaletteColor with the randomness source abstracted as an index. -/
def randomPaletteColor (ridx : Nat) : String :=
  palette.getD (ridx % palette.length) "#2563eb"

namespace Store

/-- ListProjects: SELECT ... FROM projects ORDER BY created_at ASC. -/
def ListProjects (st : Store) : List Project :=
  st.projects.mergeSort (fun p q => decide (p.createdAt ≤ q.createdAt))

/-- CreateProject: validates the trimmed name, defaults the color, inserts
a row (UNIQUE constraint on name), and returns the persisted row. -/
def CreateProject (st : Store) (name color : String) (ridx : Nat) :
    Except Err Project × Store :=
  if trimSpace name == "" then
    (.error (.validationError "project name must not be empty"), st)
  else
    let c := if color == "" then randomPaletteColor ridx else color
    if st.projects.any (fun p => p.name == trimSpace name) then
      (.error (.conflictError "insert project: UNIQUE constraint failed"), st)
    else
      let p : Project :=
        { id := st.nextProjectID, name := trimSpace name, color := c,
          createdAt := st.clock, updatedAt := st.clock }
      (.ok p,
       { st with projects := st.projects ++ [p],
                 nextProjectID := st.nextProjectID + 1,
                 clock := st.clock + 1 })

/-- GetProject: SELECT ... FROM projects WHERE id = ?. -/
def GetProject (st : Store) (id : Int) : Except Err Project :=
  match st.projects.find? (fun p => p.id == id) with
  | some p => .ok p
  | none => .error (.notFoundError "project not found")

/-- UpdateProject: validates the trimmed name, defaults the color, updates
the row (UNIQUE constraint on name still applies), not-found when no row
is affected. -/
def UpdateProject (st : Store) (id : Int) (name color : String) (ridx : Nat) :
    Except Err Project × Store :=
  if trimSpace name == "" then
    (.error (.validationError "project name must not be empty"), st)
  else
    let c := if color == "" then randomPaletteColor ridx else color
    match st.projects.find? (fun p => p.id == id) with
    | none => (.error (.notFoundError "project not found"), st)
    | some p =>
      if st.projects.any (fun q => q.name == trimSpace name && !(q.id == id)) then
        (.error (.conflictError "update project: UNIQUE constraint failed"), st)
      else
        let p2 : Project :=
          { p with name := trimSpace name, color := c, updatedAt := st.clock }
        (.ok p2,
         { st with projects := st.projects.map (fun q => if q.id == id then p2 else q),
                   clock := st.clock + 1 })

/-- DeleteProject: DELETE FROM projects WHERE id = ?; the ON DELETE CASCADE
foreign key removes the tasks of the project; not-found when no row is affected. -/
def DeleteProject (st : Store) (id : Int) : Except Err Unit × Store :=
  if st.projects.any (fun p => p.id == id) then
    (.ok (),
     { st with projects := st.projects.filter (fun p => !(p.id == id)),
               tasks := st.tasks.filter (fun t => !(t.projectID == id)),
               clock := st.clock + 1 })
  else
    (.error (.notFoundError "project not found"), st)

/-- The comparison behind ORDER BY status, position, id (TEXT status compares
lexicographically, INTEGER position and id numerically). -/
def taskLE (a b : Task) : Bool :=
  decide (a.status < b.status) ||
    (a.status == b.status &&
      (decide (a.position < b.position) ||
        (a.position == b.position && decide (a.id ≤ b.id))))

/-- ListTasks: SELECT ... FROM tasks WHERE project_id = ?
ORDER BY status, position, id. -/
def ListTasks (st : Store) (projectID : Int) : List Task :=
  (st.tasks.filter (fun t => t.projectID == projectID)).mergeSort taskLE

/-- The rows sharing one (project_id, status) partition. -/
def partitionTasks (st : Store) (projectID : Int) (status : String) : List Task :=
  st.tasks.filter (fun t => t.projectID == projectID && t.status == status)

/-- SELECT MAX(position) FROM tasks WHERE project_id = ? AND status = ?
(none models the NULL aggregate over an empty partition). -/
def maxPosition? (st : Store) (projectID : Int) (status : String) : Option Int :=
  match (partitionTasks st projectID status).map Task.position with
  | [] => none
  | p :: ps => some (ps.foldl max p)

/-- nextPosition: 0 when the partition is empty, otherwise max + 1. -/
def nextPosition (st : Store) (projectID : Int) (status : String) : Int :=
  match maxPosition? st projectID status with
  | some m => m + 1
  | none => 0

/-- The caller-supplied fields of CreateTask. -/
structure TaskInput where
  projectID : Int
  title : String
  description : String
  status : String
deriving DecidableEq

/-- CreateTask: validates the trimmed title, coerces an invalid status to
todo, computes the append position, and inserts the row (the FOREIGN KEY
constraint rejects a missing project). -/
def CreateTask (st : Store) (tin : TaskInput) : Except Err Task × Store :=
  if trimSpace tin.title == "" then
    (.error (.validationError "task title must not be empty"), st)
  else
    let status := if validTaskStatus tin.status then tin.status else "todo"
    let pos := nextPosition st tin.projectID status
    if st.projects.any (fun p => p.id == tin.projectID) then
      let t : Task :=
        { id := st.nextTaskID, projectID := tin.projectID,
          title := trimSpace tin.title, description := trimSpace tin.description,
          status := status, position := pos,
          createdAt := st.clock, updatedAt := st.clock }
      (.ok t,
       { st with tasks := st.tasks ++ [t],
                 nextTaskID := st.nextTaskID + 1,
                 clock := st.clock + 1 })
    else
      (.error (.storageError "insert task: FOREIGN KEY constraint failed"), st)

/-- GetTask: SELECT ... FROM tasks WHERE id = ?. -/
def GetTask (st : Store) (id : Int) : Except Err Task :=
  match st.tasks.find? (fun t => t.id == id) with
  | some t => .ok t
  | none => .error (.notFoundError "task not found")

/-- The per-field optional patch passed to UpdateTask (a supplied field is some). -/
structure TaskPatch where
  title : Option String := none
  description : Option String := none
  status : Option String := none
deriving DecidableEq

/-- Title resolution in UpdateTask: supplied and non-empty after trim replaces. -/
def resolveTitle (current : Task) (patch : TaskPatch) : String :=
  match patch.title with
  | some v => if trimSpace v == "" then current.title else trimSpace v
  | none => current.title

/-- Description resolution in UpdateTask: supplied replaces (trimmed). -/
def resolveDescription (current : Task) (patch : TaskPatch) : String :=
  match patch.description with
  | some v => trimSpace v
  | none => current.description

/-- Status resolution in UpdateTask: supplied and valid replaces, else kept. -/
def resolveStatus (current : Task) (patch : TaskPatch) : String :=
  match patch.status with
  | some v => if validTaskStatus v then v else current.status
  | none => current.status

/-- UpdateTask: fetches the current row, resolves the patched fields,
recomputes the position when the resolved status differs from the current
one, and persists title, description, status, position and updated_at. -/
def UpdateTask (st : Store) (id : Int) (patch : TaskPatch) : Except Err Task × Store :=
  match st.tasks.find? (fun t => t.id == id) with
  | none => (.error (.notFoundError "task not found"), st)
  | some current =>
    let title := resolveTitle current patch
    let description := resolveDescription current patch
    let status := resolveStatus current patch
    let position :=
      if status != current.status then nextPosition st current.projectID status
      else current.position
    let t2 : Task :=
      { current with title := title, description := description,
                     status := status, position := position, updatedAt := st.clock }
    (.ok t2,
     { st with tasks := st.tasks.map (fun t => if t.id == id then t2 else t),
               clock := st.clock + 1 })

/-- DeleteTask: DELETE FROM tasks WHERE id = ?; not-found when no row is
affected; the remaining rows are untouched. -/
def DeleteTask (st : Store) (id : Int) : Except Err Unit × Store :=
  if st.tasks.any (fun t => t.id == id) then
    (.ok (),
     { st with tasks := st.tasks.filter (fun t => !(t.id == id)),
               clock := st.clock + 1 })
  else
    (.error (.notFoundError "task not found"), st)

end Store

/-- One repository operation together with its arguments. -/
inductive Op where
  | createProject (name color : String) (ridx : Nat)
  | updateProject (id : Int) (name color : String) (ridx : Nat)
  | deleteProject (id : Int)
  | createTask (tin : Store.TaskInput)
  | updateTask (id : Int) (patch : Store.TaskPatch)
  | deleteTask (id : Int)

/-- The state after running one operation (errors leave the state unchanged). -/
def step (st : Store) : Op → Store
  | .createProject n c r => (st.CreateProject n c r).2
  | .updateProject i n c r => (st.UpdateProject i n c r).2
  | .deleteProject i => (st.DeleteProject i).2
  | .createTask tin => (st.CreateTask tin).2
  | .updateTask i p => (st.UpdateTask i p).2
  | .deleteTask i => (st.DeleteTask i).2

/-- States reachable from a fresh database through store operations. -/
inductive Reachable : Store → Prop
  | init : Reachable initStore
  | step {st : Store} (op : Op) : Reachable st → Reachable (step st op)

/-! ### Facts about the maximum computation behind nextPosition -/

lemma foldl_max_bounds (ps : List Int) (p : Int) :
    p ≤ ps.foldl max p ∧ ∀ q ∈ ps, q ≤ ps.foldl max p := by
  induction ps generalizing p with
  | nil => simp
  | cons q qs ih =>
    obtain ⟨h1, h2⟩ := ih (max p q)
    refine ⟨le_trans (le_max_left p q) h1, ?_⟩
    intro r hr
    rcases List.mem_cons.mp hr with rfl | hr
    · exact le_trans (le_max_right p r) h1
    · exact h2 r hr

lemma foldl_max_mem (ps : List Int) (p : Int) :
    ps.foldl max p = p ∨ ps.foldl max p ∈ ps := by
  induction ps generalizing p with
  | nil => simp
  | cons q qs ih =>
    have : (q :: qs).foldl max p = qs.foldl max (max p q) := rfl
    rw [this]
    rcases ih (max p q) with h | h
    · rcases max_choice p q with hm | hm
      · exact Or.inl (h.trans hm)
      · exact Or.inr (by rw [h, hm]; exact List.mem_cons_self q qs)
    · exact Or.inr (List.mem_cons_of_mem q h)

namespace Store

lemma maxPosition?_eq_none_iff (st : Store) (pid : Int) (s : String) :
    st.maxPosition? pid s = none ↔ st.partitionTasks pid s = [] := by
  unfold maxPosition?
  cases h : (st.partitionTasks pid s).map Task.position with
  | nil => simpa using List.map_eq_nil_iff.mp h
  | cons p ps =>
    simp only [reduceCtorEq, false_iff]
    intro hcontra
    rw [hcontra] at h
    simp at h

lemma maxPosition?_spec (st : Store) (pid : Int) (s : String) (m : Int)
    (h : st.maxPosition? pid s = some m) :
    (∃ t ∈ st.partitionTasks pid s, t.position = m) ∧
    ∀ t ∈ st.partitionTasks pid s, t.position ≤ m := by
  unfold maxPosition? at h
  cases hmap : (st.partitionTasks pid s).map Task.position with
  | nil => rw [hmap] at h; simp at h
  | cons p ps =>
    rw [hmap] at h
    simp only [Option.some.injEq] at h
    subst h
    constructor
    · have : ps.foldl max p ∈ p :: ps := by
        rcases foldl_max_mem ps p with h | h
        · rw [h]; exact List.mem_cons_self p ps
        · exact List.mem_cons_of_mem p h
      rw [← hmap] at this
      obtain ⟨t, ht, htp⟩ := List.mem_map.mp this
      exact ⟨t, ht, htp⟩
    · intro t ht
      have : t.position ∈ p :: ps := by
        rw [← hmap]; exact List.mem_map.mpr ⟨t, ht, rfl⟩
      obtain ⟨h1, h2⟩ := foldl_max_bounds ps p
      rcases List.mem_cons.mp this with heq | hmem
      · rw [heq]; exact h1
      · exact h2 _ hmem

lemma nextPosition_gt (st : Store) (pid : Int) (s : String) :
    ∀ t ∈ st.partitionTasks pid s, t.position < st.nextPosition pid s := by
  intro t ht
  unfold nextPosition
  cases h : st.maxPosition? pid s with
  | none =>
    rw [maxPosition?_eq_none_iff] at h
    rw [h] at ht
    simp at ht
  | some m =>
    obtain ⟨_, hub⟩ := maxPosition?_spec st pid s m h
    exact lt_of_le_of_lt (hub t ht) (lt_add_one m)

lemma nextPosition_nonneg (st : Store) (pid : Int) (s : String)
    (hpos : ∀ t ∈ st.tasks, 0 ≤ t.position) :
    0 ≤ st.nextPosition pid s := by
  unfold nextPosition
  cases h : st.maxPosition? pid s with
  | none => simp
  | some m =>
    obtain ⟨⟨t, ht, htm⟩, _⟩ := maxPosition?_spec st pid s m h
    have ht2 : t ∈ st.tasks := List.mem_of_mem_filter ht
    have h0 := hpos t ht2
    show 0 ≤ m + 1
    omega

/-! ### Inversion lemmas describing the successful run of each operation -/

lemma CreateProject_ok {st : Store} {name color : String} {ridx : Nat}
    {p : Project} {st1 : Store}
    (h : st.CreateProject name color ridx = (.ok p, st1)) :
    trimSpace name ≠ "" ∧
    (∀ q ∈ st.projects, q.name ≠ trimSpace name) ∧
    p = { id := st.nextProjectID, name := trimSpace name,
          color := if color == "" then randomPaletteColor ridx else color,
          createdAt := st.clock, updatedAt := st.clock } ∧
    st1 = { st with projects := st.projects ++ [p],
                    nextProjectID := st.nextProjectID + 1,
                    clock := st.clock + 1 } := by
  simp only [CreateProject] at h
  by_cases hname : (trimSpace name == "") = true
  · rw [if_pos hname] at h
    simp at h
  · rw [if_neg hname] at h
    by_cases hconf : (st.projects.any fun p => p.name == trimSpace name) = true
    · rw [if_pos hconf] at h
      simp at h
    · rw [if_neg hconf] at h
      simp only [Prod.mk.injEq, Except.ok.injEq] at h
      obtain ⟨hp, hst⟩ := h
      refine ⟨by simpa using hname, ?_, hp.symm, by rw [← hst, hp]⟩
      intro q hq hqname
      exact hconf (List.any_eq_true.mpr ⟨q, hq, by simp [hqname]⟩)

lemma CreateTask_ok {st : Store} {tin : Store.TaskInput} {t : Task} {st1 : Store}
    (h : st.CreateTask tin = (.ok t, st1)) :
    trimSpace tin.title ≠ "" ∧
    (∃ q ∈ st.projects, q.id = tin.projectID) ∧
    t = { id := st.nextTaskID, projectID := tin.projectID,
          title := trimSpace tin.title, description := trimSpace tin.description,
          status := if validTaskStatus tin.status then tin.status else "todo",
          position := st.nextPosition tin.projectID
            (if validTaskStatus tin.status then tin.status else "todo"),
          createdAt := st.clock, updatedAt := st.clock } ∧
    st1 = { st with tasks := st.tasks ++ [t],
                    nextTaskID := st.nextTaskID + 1,
                    clock := st.clock + 1 } := by
  simp only [CreateTask] at h
  by_cases htitle : (trimSpace tin.title == "") = true
  · rw [if_pos htitle] at h
    simp at h
  · rw [if_neg htitle] at h
    by_cases hproj : (st.projects.any fun p => p.id == tin.projectID) = true
    · rw [if_pos hproj] at h
      simp only [Prod.mk.injEq, Except.ok.injEq] at h
      obtain ⟨ht, hst⟩ := h
      obtain ⟨q, hq, hqid⟩ := List.any_eq_true.mp hproj
      refine ⟨by simpa using htitle, ⟨q, hq, by simpa using hqid⟩, ht.symm, ?_⟩
      rw [← hst, ht]
    · rw [if_neg hproj] at h
      simp at h

lemma UpdateTask_ok {st : Store} {id : Int} {patch : Store.TaskPatch}
    {t2 : Task} {st2 : Store}
    (h : st.UpdateTask id patch = (.ok t2, st2)) :
    ∃ current, st.tasks.find? (fun t => t.id == id) = some current ∧
      t2 = { current with
               title := Store.resolveTitle current patch,
               description := Store.resolveDescription current patch,
               status := Store.resolveStatus current patch,
               position :=
                 if Store.resolveStatus current patch != current.status then
                   st.nextPosition current.projectID (Store.resolveStatus current patch)
                 else current.position,
               updatedAt := st.clock } ∧
      st2 = { st with tasks := st.tasks.map (fun t => if t.id == id then t2 else t),
                      clock := st.clock + 1 } := by
  simp only [UpdateTask] at h
  cases hfind : st.tasks.find? (fun t => t.id == id) with
  | none =>
    rw [hfind] at h
    simp at h
  | some current =>
    rw [hfind] at h
    simp only [Prod.mk.injEq, Except.ok.injEq] at h
    obtain ⟨ht, hst⟩ := h
    exact ⟨current, rfl, ht.symm, by rw [← hst, ht]⟩

lemma DeleteTask_ok {st : Store} {id : Int} {st2 : Store}
    (h : st.DeleteTask id = (.ok (), st2)) :
    st2 = { st with tasks := st.tasks.filter (fun t => !(t.id == id)),
                    clock := st.clock + 1 } := by
  simp only [DeleteTask] at h
  by_cases hex : (st.tasks.any fun t => t.id == id) = true
  · rw [if_pos hex] at h
    simp only [Prod.mk.injEq] at h
    exact h.2.symm
  · rw [if_neg hex] at h
    simp at h

lemma DeleteProject_ok {st : Store} {id : Int} {st2 : Store}
    (h : st.DeleteProject id = (.ok (), st2)) :
    st2 = { st with projects := st.projects.filter (fun p => !(p.id == id)),
                    tasks := st.tasks.filter (fun t => !(t.projectID == id)),
                    clock := st.clock + 1 } := by
  simp only [DeleteProject] at h
  by_cases hex : (st.projects.any fun p => p.id == id) = true
  · rw [if_pos hex] at h
    simp only [Prod.mk.injEq] at h
    exact h.2.symm
  · rw [if_neg hex] at h
    simp at h

lemma UpdateProject_ok {st : Store} {id : Int} {name color : String} {ridx : Nat}
    {p2 : Project} {st2 : Store}
    (h : st.UpdateProject id name color ridx = (.ok p2, st2)) :
    ∃ p, st.projects.find? (fun q => q.id == id) = some p ∧
      p2 = { p with name := trimSpace name,
                    color := if color == "" then randomPaletteColor ridx else color,
                    updatedAt := st.clock } ∧
      st2 = { st with projects := st.projects.map (fun q => if q.id == id then p2 else q),
                      clock := st.clock + 1 } := by
  simp only [UpdateProject] at h
  by_cases hname : (trimSpace name == "") = true
  · rw [if_pos hname] at h
    simp at h
  · rw [if_neg hname] at h
    cases hfind : st.projects.find? (fun q => q.id == id) with
    | none =>
      rw [hfind] at h
      simp at h
    | some p =>
      rw [hfind] at h
      dsimp only at h
      by_cases hconf : (st.projects.any fun q => q.name == trimSpace name && !(q.id == id)) = true
      · rw [if_pos hconf] at h
        simp at h
      · rw [if_neg hconf] at h
        simp only [Prod.mk.injEq, Except.ok.injEq] at h
        obtain ⟨hp, hst⟩ := h
        exact ⟨p, rfl, hp.symm, by rw [← hst, hp]⟩

/-! ### Each operation either fails leaving the state unchanged or succeeds -/

lemma CreateProject_cases (st : Store) (n c : String) (r : Nat) :
    (∃ e, st.CreateProject n c r = (.error e, st)) ∨
    (∃ p st1, st.CreateProject n c r = (.ok p, st1)) := by
  simp only [CreateProject]
  by_cases hname : (trimSpace n == "") = true
  · rw [if_pos hname]
    exact Or.inl ⟨_, rfl⟩
  · rw [if_neg hname]
    by_cases hconf : (st.projects.any fun p => p.name == trimSpace n) = true
    · rw [if_pos hconf]
      exact Or.inl ⟨_, rfl⟩
    · rw [if_neg hconf]
      exact Or.inr ⟨_, _, rfl⟩

lemma UpdateProject_cases (st : Store) (id : Int) (n c : String) (r : Nat) :
    (∃ e, st.UpdateProject id n c r = (.error e, st)) ∨
    (∃ p2 st2, st.UpdateProject id n c r = (.ok p2, st2)) := by
  simp only [UpdateProject]
  by_cases hname : (trimSpace n == "") = true
  · rw [if_pos hname]
    exact Or.inl ⟨_, rfl⟩
  · rw [if_neg hname]
    cases hfind : st.projects.find? (fun q => q.id == id) with
    | none => exact Or.inl ⟨_, rfl⟩
    | some p =>
      dsimp only
      by_cases hconf : (st.projects.any fun q => q.name == trimSpace n && !(q.id == id)) = true
      · rw [if_pos hconf]
        exact Or.inl ⟨_, rfl⟩
      · rw [if_neg hconf]
        exact Or.inr ⟨_, _, rfl⟩

lemma DeleteProject_cases (st : Store) (id : Int) :
    (∃ e, st.DeleteProject id = (.error e, st)) ∨
    (∃ st1, st.DeleteProject id = (.ok (), st1)) := by
  simp only [DeleteProject]
  by_cases hex : (st.projects.any fun p => p.id == id) = true
  · rw [if_pos hex]
    exact Or.inr ⟨_, rfl⟩
  · rw [if_neg hex]
    exact Or.inl ⟨_, rfl⟩

lemma CreateTask_cases (st : Store) (tin : TaskInput) :
    (∃ e, st.CreateTask tin = (.error e, st)) ∨
    (∃ t st1, st.CreateTask tin = (.ok t, st1)) := by
  simp only [CreateTask]
  by_cases htitle : (trimSpace tin.title == "") = true
  · rw [if_pos htitle]
    exact Or.inl ⟨_, rfl⟩
  · rw [if_neg htitle]
    by_cases hproj : (st.projects.any fun p => p.id == tin.projectID) = true
    · rw [if_pos hproj]
      exact Or.inr ⟨_, _, rfl⟩
    · rw [if_neg hproj]
      exact Or.inl ⟨_, rfl⟩

lemma UpdateTask_cases (st : Store) (id : Int) (patch : TaskPatch) :
    (∃ e, st.UpdateTask id patch = (.error e, st)) ∨
    (∃ t2 st2, st.UpdateTask id patch = (.ok t2, st2)) := by
  simp only [UpdateTask]
  cases hfind : st.tasks.find? (fun t => t.id == id) with
  | none => exact Or.inl ⟨_, rfl⟩
  | some current => exact Or.inr ⟨_, _, rfl⟩

lemma DeleteTask_cases (st : Store) (id : Int) :
    (∃ e, st.DeleteTask id = (.error e, st)) ∨
    (∃ st1, st.DeleteTask id = (.ok (), st1)) := by
  simp only [DeleteTask]
  by_cases hex : (st.tasks.any fun t => t.id == id) = true
  · rw [if_pos hex]
    exact Or.inr ⟨_, rfl⟩
  · rw [if_neg hex]
    exact Or.inl ⟨_, rfl⟩

end Store

/-- Members of a list pairwise distinct under f are determined by their f-image. -/
lemma pairwise_ne_inj {α β : Type} {f : α → β} {l : List α}
    (h : l.Pairwise (fun a b => f a ≠ f b)) :
    ∀ a ∈ l, ∀ b ∈ l, f a = f b → a = b := by
  induction l with
  | nil => simp
  | cons x xs ih =>
    intro a ha b hb hfab
    rcases List.mem_cons.mp ha with rfl | ha2
    · rcases List.mem_cons.mp hb with rfl | hb2
      · rfl
      · exact absurd hfab ((List.pairwise_cons.mp h).1 b hb2)
    · rcases List.mem_cons.mp hb with rfl | hb2
      · exact absurd hfab.symm ((List.pairwise_cons.mp h).1 a ha2)
      · exact ih (List.pairwise_cons.mp h).2 a ha2 b hb2 hfab

/-- The data invariants maintained by every store operation. -/
structure Inv (st : Store) : Prop where
  posNonneg : ∀ t ∈ st.tasks, 0 ≤ t.position
  statusValid : ∀ t ∈ st.tasks, validTaskStatus t.status = true
  fk : ∀ t ∈ st.tasks, ∃ p ∈ st.projects, p.id = t.projectID
  projClock : ∀ p ∈ st.projects, p.createdAt < st.clock
  projSorted : st.projects.Pairwise (fun p q => p.createdAt < q.createdAt)
  projIdLt : ∀ p ∈ st.projects, p.id < st.nextProjectID
  projIdNodup : st.projects.Pairwise (fun p q => p.id ≠ q.id)
  taskIdLt : ∀ t ∈ st.tasks, t.id < st.nextTaskID
  taskIdNodup : st.tasks.Pairwise (fun t u => t.id ≠ u.id)

lemma inv_init : Inv initStore := by
  constructor <;> simp [initStore]

lemma resolveStatus_valid (current : Task) (patch : Store.TaskPatch)
    (hcur : validTaskStatus current.status = true) :
    validTaskStatus (Store.resolveStatus current patch) = true := by
  unfold Store.resolveStatus
  cases patch.status with
  | none => exact hcur
  | some v =>
    dsimp only
    by_cases hv : validTaskStatus v = true
    · rw [if_pos hv]
      exact hv
    · rw [if_neg hv]
      exact hcur

lemma inv_createProject {st : Store} (hinv : Inv st) (n c : String) (r : Nat) :
    Inv (st.CreateProject n c r).2 := by
  rcases Store.CreateProject_cases st n c r with ⟨e, heq⟩ | ⟨p, st1, heq⟩
  · rw [heq]
    exact hinv
  · obtain ⟨hname, hconf, hp, hst⟩ := Store.CreateProject_ok heq
    rw [heq]
    dsimp only
    rw [hst]
    exact {
      posNonneg := hinv.posNonneg
      statusValid := hinv.statusValid
      fk := by
        intro t ht
        obtain ⟨q, hq, hqid⟩ := hinv.fk t ht
        exact ⟨q, List.mem_append_left _ hq, hqid⟩
      projClock := by
        intro q hq
        rcases List.mem_append.mp hq with h1 | h1
        · exact Nat.lt_succ_of_lt (hinv.projClock q h1)
        · rw [List.mem_singleton] at h1
          subst h1
          rw [hp]
          exact Nat.lt_succ_self _
      projSorted := by
        rw [List.pairwise_append]
        refine ⟨hinv.projSorted, by simp, ?_⟩
        intro a ha b hb
        rw [List.mem_singleton] at hb
        subst hb
        rw [hp]
        exact hinv.projClock a ha
      projIdLt := by
        intro q hq
        rcases List.mem_append.mp hq with h1 | h1
        · have := hinv.projIdLt q h1
          show q.id < st.nextProjectID + 1
          omega
        · rw [List.mem_singleton] at h1
          subst h1
          rw [hp]
          exact lt_add_one _
      projIdNodup := by
        rw [List.pairwise_append]
        refine ⟨hinv.projIdNodup, by simp, ?_⟩
        intro a ha b hb
        rw [List.mem_singleton] at hb
        subst hb
        rw [hp]
        exact ne_of_lt (hinv.projIdLt a ha)
      taskIdLt := hinv.taskIdLt
      taskIdNodup := hinv.taskIdNodup
    }

lemma inv_updateProject {st : Store} (hinv : Inv st) (id : Int) (n c : String) (r : Nat) :
    Inv (st.UpdateProject id n c r).2 := by
  rcases Store.UpdateProject_cases st id n c r with ⟨e, heq⟩ | ⟨p2, st2, heq⟩
  · rw [heq]
    exact hinv
  · obtain ⟨p, hfind, hp2, hst⟩ := Store.UpdateProject_ok heq
    have hpmem : p ∈ st.projects := List.mem_of_find?_eq_some hfind
    have hpid : p.id = id := by
      have := List.find?_some hfind
      exact eq_of_beq this
    have hel : ∀ q ∈ st.projects,
        ((if (q.id == id) = true then p2 else q).id = q.id ∧
         (if (q.id == id) = true then p2 else q).createdAt = q.createdAt) := by
      intro q hq
      by_cases hqid : (q.id == id) = true
      · have hqp : q = p :=
          pairwise_ne_inj hinv.projIdNodup q hq p hpmem (by rw [eq_of_beq hqid, hpid])
        rw [if_pos hqid, hp2, hqp]
        exact ⟨rfl, rfl⟩
      · rw [if_neg hqid]
        exact ⟨rfl, rfl⟩
    rw [heq]
    dsimp only
    rw [hst]
    exact {
      posNonneg := hinv.posNonneg
      statusValid := hinv.statusValid
      fk := by
        intro t ht
        obtain ⟨q, hq, hqid⟩ := hinv.fk t ht
        refine ⟨(fun q => if (q.id == id) = true then p2 else q) q,
                List.mem_map_of_mem _ hq, ?_⟩
        rw [(hel q hq).1, hqid]
      projClock := by
        intro x hx
        obtain ⟨q, hq, rfl⟩ := List.mem_map.mp hx
        rw [(hel q hq).2]
        exact Nat.lt_succ_of_lt (hinv.projClock q hq)
      projSorted := by
        rw [List.pairwise_map]
        refine hinv.projSorted.imp_of_mem ?_
        intro a b ha hb hr
        rw [(hel a ha).2, (hel b hb).2]
        exact hr
      projIdLt := by
        intro x hx
        obtain ⟨q, hq, rfl⟩ := List.mem_map.mp hx
        rw [(hel q hq).1]
        exact hinv.projIdLt q hq
      projIdNodup := by
        rw [List.pairwise_map]
        refine hinv.projIdNodup.imp_of_mem ?_
        intro a b ha hb hr
        rw [(hel a ha).1, (hel b hb).1]
        exact hr
      taskIdLt := hinv.taskIdLt
      taskIdNodup := hinv.taskIdNodup
    }

lemma inv_deleteProject {st : Store} (hinv : Inv st) (id : Int) :
    Inv (st.DeleteProject id).2 := by
  rcases Store.DeleteProject_cases st id with ⟨e, heq⟩ | ⟨st1, heq⟩
  · rw [heq]
    exact hinv
  · have hst := Store.DeleteProject_ok heq
    rw [heq]
    dsimp only
    rw [hst]
    exact {
      posNonneg := fun t ht => hinv.posNonneg t (List.mem_of_mem_filter ht)
      statusValid := fun t ht => hinv.statusValid t (List.mem_of_mem_filter ht)
      fk := by
        intro t ht
        rw [List.mem_filter] at ht
        obtain ⟨ht1, ht2⟩ := ht
        obtain ⟨q, hq, hqid⟩ := hinv.fk t ht1
        refine ⟨q, ?_, hqid⟩
        rw [List.mem_filter]
        refine ⟨hq, ?_⟩
        rw [hqid]
        exact ht2
      projClock := fun p hp =>
        Nat.lt_succ_of_lt (hinv.projClock p (List.mem_of_mem_filter hp))
      projSorted := hinv.projSorted.sublist (List.filter_sublist _)
      projIdLt := fun p hp => hinv.projIdLt p (List.mem_of_mem_filter hp)
      projIdNodup := hinv.projIdNodup.sublist (List.filter_sublist _)
      taskIdLt := fun t ht => hinv.taskIdLt t (List.mem_of_mem_filter ht)
      taskIdNodup := hinv.taskIdNodup.sublist (List.filter_sublist _)
    }

lemma inv_createTask {st : Store} (hinv : Inv st) (tin : Store.TaskInput) :
    Inv (st.CreateTask tin).2 := by
  rcases Store.CreateTask_cases st tin with ⟨e, heq⟩ | ⟨t, st1, heq⟩
  · rw [heq]
    exact hinv
  · obtain ⟨htitle, ⟨q, hq, hqid⟩, ht, hst⟩ := Store.CreateTask_ok heq
    rw [heq]
    dsimp only
    rw [hst]
    exact {
      posNonneg := by
        intro u hu
        rcases List.mem_append.mp hu with h1 | h1
        · exact hinv.posNonneg u h1
        · rw [List.mem_singleton] at h1
          subst h1
          rw [ht]
          exact Store.nextPosition_nonneg st _ _ hinv.posNonneg
      statusValid := by
        intro u hu
        rcases List.mem_append.mp hu with h1 | h1
        · exact hinv.statusValid u h1
        · rw [List.mem_singleton] at h1
          subst h1
          rw [ht]
          by_cases hv : validTaskStatus tin.status = true
          · rw [if_pos hv]
            exact hv
          · rw [if_neg hv]
            show validTaskStatus "todo" = true
            decide
      fk := by
        intro u hu
        rcases List.mem_append.mp hu with h1 | h1
        · exact hinv.fk u h1
        · rw [List.mem_singleton] at h1
          subst h1
          rw [ht]
          exact ⟨q, hq, hqid⟩
      projClock := fun p hp => Nat.lt_succ_of_lt (hinv.projClock p hp)
      projSorted := hinv.projSorted
      projIdLt := hinv.projIdLt
      projIdNodup := hinv.projIdNodup
      taskIdLt := by
        intro u hu
        rcases List.mem_append.mp hu with h1 | h1
        · have := hinv.taskIdLt u h1
          show u.id < st.nextTaskID + 1
          omega
        · rw [List.mem_singleton] at h1
          subst h1
          rw [ht]
          exact lt_add_one _
      taskIdNodup := by
        rw [List.pairwise_append]
        refine ⟨hinv.taskIdNodup, by simp, ?_⟩
        intro a ha b hb
        rw [List.mem_singleton] at hb
        subst hb
        rw [ht]
        exact ne_of_lt (hinv.taskIdLt a ha)
    }

lemma inv_updateTask {st : Store} (hinv : Inv st) (id : Int) (patch : Store.TaskPatch) :
    Inv (st.UpdateTask id patch).2 := by
  rcases Store.UpdateTask_cases st id patch with ⟨e, heq⟩ | ⟨t2, st2, heq⟩
  · rw [heq]
    exact hinv
  · obtain ⟨current, hfind, ht2, hst⟩ := Store.UpdateTask_ok heq
    have hcmem : current ∈ st.tasks := List.mem_of_find?_eq_some hfind
    have hcid : current.id = id := by
      have h1 := List.find?_some hfind
      exact eq_of_beq h1
    have hel : ∀ u ∈ st.tasks,
        ((if (u.id == id) = true then t2 else u).id = u.id ∧
         (if (u.id == id) = true then t2 else u).projectID = u.projectID) := by
      intro u hu
      by_cases huid : (u.id == id) = true
      · have hup : u = current :=
          pairwise_ne_inj hinv.taskIdNodup u hu current hcmem (by rw [eq_of_beq huid, hcid])
        rw [if_pos huid, ht2, hup]
        exact ⟨rfl, rfl⟩
      · rw [if_neg huid]
        exact ⟨rfl, rfl⟩
    rw [heq]
    dsimp only
    rw [hst]
    exact {
      posNonneg := by
        intro x hx
        obtain ⟨u, hu, rfl⟩ := List.mem_map.mp hx
        by_cases huid : (u.id == id) = true
        · rw [if_pos huid, ht2]
          show 0 ≤ (if Store.resolveStatus current patch != current.status then
            st.nextPosition current.projectID (Store.resolveStatus current patch)
            else current.position)
          split
          · exact Store.nextPosition_nonneg st _ _ hinv.posNonneg
          · exact hinv.posNonneg current hcmem
        · rw [if_neg huid]
          exact hinv.posNonneg u hu
      statusValid := by
        intro x hx
        obtain ⟨u, hu, rfl⟩ := List.mem_map.mp hx
        by_cases huid : (u.id == id) = true
        · rw [if_pos huid, ht2]
          exact resolveStatus_valid current patch (hinv.statusValid current hcmem)
        · rw [if_neg huid]
          exact hinv.statusValid u hu
      fk := by
        intro x hx
        obtain ⟨u, hu, rfl⟩ := List.mem_map.mp hx
        obtain ⟨qq, hqq, hqqid⟩ := hinv.fk u hu
        refine ⟨qq, hqq, ?_⟩
        rw [(hel u hu).2, hqqid]
      projClock := fun p hp => Nat.lt_succ_of_lt (hinv.projClock p hp)
      projSorted := hinv.projSorted
      projIdLt := hinv.projIdLt
      projIdNodup := hinv.projIdNodup
      taskIdLt := by
        intro x hx
        obtain ⟨u, hu, rfl⟩ := List.mem_map.mp hx
        rw [(hel u hu).1]
        exact hinv.taskIdLt u hu
      taskIdNodup := by
        rw [List.pairwise_map]
        refine hinv.taskIdNodup.imp_of_mem ?_
        intro a b ha hb hr
        rw [(hel a ha).1, (hel b hb).1]
        exact hr
    }

lemma inv_deleteTask {st : Store} (hinv : Inv st) (id : Int) :
    Inv (st.DeleteTask id).2 := by
  rcases Store.DeleteTask_cases st id with ⟨e, heq⟩ | ⟨st1, heq⟩
  · rw [heq]
    exact hinv
  · have hst := Store.DeleteTask_ok heq
    rw [heq]
    dsimp only
    rw [hst]
    exact {
      posNonneg := fun t ht => hinv.posNonneg t (List.mem_of_mem_filter ht)
      statusValid := fun t ht => hinv.statusValid t (List.mem_of_mem_filter ht)
      fk := fun t ht => hinv.fk t (List.mem_of_mem_filter ht)
      projClock := fun p hp => Nat.lt_succ_of_lt (hinv.projClock p hp)
      projSorted := hinv.projSorted
      projIdLt := hinv.projIdLt
      projIdNodup := hinv.projIdNodup
      taskIdLt := fun t ht => hinv.taskIdLt t (List.mem_of_mem_filter ht)
      taskIdNodup := hinv.taskIdNodup.sublist (List.filter_sublist _)
    }

lemma inv_step {st : Store} (hinv : Inv st) (op : Op) : Inv (step st op) := by
  cases op with
  | createProject n c r => exact inv_createProject hinv n c r
  | updateProject i n c r => exact inv_updateProject hinv i n c r
  | deleteProject i => exact inv_deleteProject hinv i
  | createTask tin => exact inv_createTask hinv tin
  | updateTask i p => exact inv_updateTask hinv i p
  | deleteTask i => exact inv_deleteTask hinv i

lemma reachable_inv {st : Store} (h : Reachable st) : Inv st := by
  induction h with
  | init => exact inv_init
  | step op _ ih => exact inv_step ih op

/-! ### A small concrete run used to witness the theorems -/

/-- One project and two tasks in its todo column. -/
def demoStore : Store :=
  step (step (step initStore (.createProject "Launch" "" 0))
    (.createTask { projectID := 1, title := "Write spec", description := "", status := "todo" }))
    (.createTask { projectID := 1, title := "Review", description := "", status := "todo" })

lemma demoStore_reachable : Reachable demoStore :=
  Reachable.step _ (Reachable.step _ (Reachable.step _ Reachable.init))

def demoProject : Project :=
  { id := 1, name := "Launch", color := "#2563eb", createdAt := 0, updatedAt := 0 }

def demoTask1 : Task :=
  { id := 1, projectID := 1, title := "Write spec", description := "",
    status := "todo", position := 0, createdAt := 1, updatedAt := 1 }

def demoTask2 : Task :=
  { id := 2, projectID := 1, title := "Review", description := "",
    status := "todo", position := 1, createdAt := 2, updatedAt := 2 }

/-- A patch that moves a task to the in_progress column. -/
def patchMove : Store.TaskPatch := { status := some "in_progress" }

/-- The row after moving demoTask2 to in_progress. -/
def demoMoved : Task :=
  { id := 2, projectID := 1, title := "Review", description := "",
    status := "in_progress", position := 0, createdAt := 2, updatedAt := 3 }

/-- The store after moving demoTask2 to in_progress. -/
def demoMovedStore : Store :=
  { projects := [demoProject], tasks := [demoTask1, demoMoved],
    nextProjectID := 2, nextTaskID := 3, clock := 4 }

/-! ### The claims -/

/-- C1: nextPosition(project_id, status) returns 0 when no task exists in the
(project_id, status) partition and otherwise one plus the maximum position in
that partition; consequently the first task created into a fresh partition
receives position 0 and the second position 1, whatever the rest of the state
holds. -/
theorem C1_nextPosition_spec (st : Store) (pid : Int) (s : String) :
    (st.partitionTasks pid s = [] → st.nextPosition pid s = 0) ∧
    (∀ m : Int, (∃ t ∈ st.partitionTasks pid s, t.position = m) →
       (∀ t ∈ st.partitionTasks pid s, t.position ≤ m) →
       st.nextPosition pid s = m + 1) ∧
    (∀ tin t1 st1, st.CreateTask tin = (.ok t1, st1) →
       st.partitionTasks tin.projectID t1.status = [] →
       t1.position = 0 ∧
       ∀ tin2 t2 st2, st1.CreateTask tin2 = (.ok t2, st2) →
         tin2.projectID = tin.projectID → t2.status = t1.status →
         t2.position = 1) := by
  have hempty : ∀ pid2 s2, st.partitionTasks pid2 s2 = [] → st.nextPosition pid2 s2 = 0 := by
    intro pid2 s2 hemp
    unfold Store.nextPosition
    rw [(Store.maxPosition?_eq_none_iff st pid2 s2).mpr hemp]
  refine ⟨hempty pid s, ?_, ?_⟩
  · intro m hex hub
    cases hmax : st.maxPosition? pid s with
    | none =>
      rw [Store.maxPosition?_eq_none_iff] at hmax
      obtain ⟨t, ht, _⟩ := hex
      rw [hmax] at ht
      simp at ht
    | some m2 =>
      obtain ⟨⟨u, hu, hum⟩, hub2⟩ := Store.maxPosition?_spec st pid s m2 hmax
      obtain ⟨t, ht, htm⟩ := hex
      have h1 : m2 ≤ m := by
        rw [← hum]
        exact hub u hu
      have h2 : m ≤ m2 := by
        rw [← htm]
        exact hub2 t ht
      have hm : m2 = m := le_antisymm h1 h2
      unfold Store.nextPosition
      rw [hmax, hm]
  · intro tin t1 st1 hcreate hemp
    obtain ⟨htitle, hproj, ht, hst⟩ := Store.CreateTask_ok hcreate
    have hstat : t1.status = (if validTaskStatus tin.status = true then tin.status else "todo") := by
      rw [ht]
    have hpid : t1.projectID = tin.projectID := by
      rw [ht]
    have hpos : t1.position = st.nextPosition tin.projectID t1.status := by
      rw [ht]
    have hfirst : t1.position = 0 := by
      rw [hpos]
      exact hempty tin.projectID t1.status hemp
    refine ⟨hfirst, ?_⟩
    intro tin2 t2 st2 hcreate2 hpid2 hstat2
    obtain ⟨htitle2, hproj2, ht2, hst2⟩ := Store.CreateTask_ok hcreate2
    have hpart1 : st1.partitionTasks tin.projectID t1.status = [t1] := by
      unfold Store.partitionTasks
      rw [hst]
      dsimp only
      rw [List.filter_append]
      have he : st.tasks.filter
          (fun t => t.projectID == tin.projectID && t.status == t1.status) = [] := hemp
      rw [he]
      simp [hpid]
    have hmax1 : st1.maxPosition? tin.projectID t1.status = some t1.position := by
      unfold Store.maxPosition?
      rw [hpart1]
      rfl
    have hpos2 : t2.position = st1.nextPosition tin2.projectID t2.status := by
      rw [ht2]
    rw [hpos2, hpid2, hstat2]
    unfold Store.nextPosition
    rw [hmax1, hfirst]
    rfl

/-- C1 witness: in the demo store the todo column of project 1 holds positions
0 and 1, so the next appended position is 1 + 1. -/
theorem C1_nextPosition_spec_witness : demoStore.nextPosition 1 "todo" = 1 + 1 :=
  (C1_nextPosition_spec demoStore 1 "todo").2.1 1 (by decide) (by decide)

/-- C2: UpdateTask recomputes the position via nextPosition over the
destination partition exactly when the resolved status differs from the
current status, and keeps the position otherwise. -/
theorem C2_updateTask_position (st : Store) (id : Int) (patch : Store.TaskPatch)
    (current t2 : Task) (st2 : Store)
    (hfind : st.tasks.find? (fun t => t.id == id) = some current)
    (h : st.UpdateTask id patch = (.ok t2, st2)) :
    (Store.resolveStatus current patch ≠ current.status →
       t2.position = st.nextPosition current.projectID (Store.resolveStatus current patch)) ∧
    (Store.resolveStatus current patch = current.status →
       t2.position = current.position) := by
  obtain ⟨c2, hfind2, ht2, hst2⟩ := Store.UpdateTask_ok h
  rw [hfind] at hfind2
  have hc : current = c2 := Option.some.inj hfind2
  subst hc
  constructor
  · intro hne
    rw [ht2]
    show (if (Store.resolveStatus current patch != current.status) = true then
        st.nextPosition current.projectID (Store.resolveStatus current patch)
      else current.position) = _
    rw [if_pos (bne_iff_ne.mpr hne)]
  · intro heq
    rw [ht2]
    show (if (Store.resolveStatus current patch != current.status) = true then
        st.nextPosition current.projectID (Store.resolveStatus current patch)
      else current.position) = _
    rw [if_neg (by simp [heq])]

/-- C2 witness: moving demoTask2 from todo to in_progress lands it at the end
of the empty in_progress column, at position 0. -/
theorem C2_updateTask_position_witness :
    (Store.resolveStatus demoTask2 patchMove ≠ demoTask2.status →
       demoMoved.position =
         demoStore.nextPosition demoTask2.projectID (Store.resolveStatus demoTask2 patchMove)) ∧
    (Store.resolveStatus demoTask2 patchMove = demoTask2.status →
       demoMoved.position = demoTask2.position) :=
  C2_updateTask_position demoStore 2 patchMove demoTask2 demoMoved demoMovedStore
    (by decide) (by rfl)

/-- C8: a repository operation that returns an error leaves the store state
exactly as it was before the call. -/
theorem C8_error_state_unchanged (st : Store) :
    (∀ n c r e, (st.CreateProject n c r).1 = .error e → (st.CreateProject n c r).2 = st) ∧
    (∀ i n c r e, (st.UpdateProject i n c r).1 = .error e → (st.UpdateProject i n c r).2 = st) ∧
    (∀ i e, (st.DeleteProject i).1 = .error e → (st.DeleteProject i).2 = st) ∧
    (∀ tin e, (st.CreateTask tin).1 = .error e → (st.CreateTask tin).2 = st) ∧
    (∀ i patch e, (st.UpdateTask i patch).1 = .error e → (st.UpdateTask i patch).2 = st) ∧
    (∀ i e, (st.DeleteTask i).1 = .error e → (st.DeleteTask i).2 = st) := by
  refine ⟨?_, ?_, ?_, ?_, ?_, ?_⟩
  · intro n c r e h
    rcases Store.CreateProject_cases st n c r with ⟨e2, heq⟩ | ⟨p, st1, heq⟩
    · rw [heq]
    · rw [heq] at h ⊢
      simp at h
  · intro i n c r e h
    rcases Store.UpdateProject_cases st i n c r with ⟨e2, heq⟩ | ⟨p, st1, heq⟩
    · rw [heq]
    · rw [heq] at h ⊢
      simp at h
  · intro i e h
    rcases Store.DeleteProject_cases st i with ⟨e2, heq⟩ | ⟨st1, heq⟩
    · rw [heq]
    · rw [heq] at h ⊢
      simp at h
  · intro tin e h
    rcases Store.CreateTask_cases st tin with ⟨e2, heq⟩ | ⟨t, st1, heq⟩
    · rw [heq]
    · rw [heq] at h ⊢
      simp at h
  · intro i patch e h
    rcases Store.UpdateTask_cases st i patch with ⟨e2, heq⟩ | ⟨t, st1, heq⟩
    · rw [heq]
    · rw [heq] at h ⊢
      simp at h
  · intro i e h
    rcases Store.DeleteTask_cases st i with ⟨e2, heq⟩ | ⟨st1, heq⟩
    · rw [heq]
    · rw [heq] at h ⊢
      simp at h

/-- C8 witness: deleting a nonexistent task errors and leaves the fresh store
unchanged. -/
theorem C8_error_state_unchanged_witness :
    (initStore.DeleteTask 5).1 = .error (.notFoundError "task not found") ∧
    (initStore.DeleteTask 5).2 = initStore :=
  ⟨by rfl,
   (C8_error_state_unchanged initStore).2.2.2.2.2 5
     (.notFoundError "task not found") (by rfl)⟩

/-- C10: UpdateTask never changes the id, project_id or created_at of a task: only
title, description, status, position and updated_at are written. -/
theorem C10_updateTask_frame (st : Store) (hre : Reachable st) (id : Int)
    (patch : Store.TaskPatch) (t2 : Task) (st2 : Store)
    (hupd : st.UpdateTask id patch = (.ok t2, st2)) :
    t2.id = id ∧
    (∀ current, st.tasks.find? (fun t => t.id == id) = some current →
       t2.projectID = current.projectID ∧ t2.createdAt = current.createdAt) ∧
    st2.tasks.map (fun t => (t.id, t.projectID, t.createdAt)) =
      st.tasks.map (fun t => (t.id, t.projectID, t.createdAt)) := by
  have hinv := reachable_inv hre
  obtain ⟨current, hfind, ht2, hst2⟩ := Store.UpdateTask_ok hupd
  have hcmem : current ∈ st.tasks := List.mem_of_find?_eq_some hfind
  have hcid : current.id = id := by
    have h1 := List.find?_some hfind
    exact eq_of_beq h1
  have hid : t2.id = id := by
    rw [ht2]
    show current.id = id
    exact hcid
  refine ⟨hid, ?_, ?_⟩
  · intro c2 hfind2
    rw [hfind] at hfind2
    have hc : current = c2 := Option.some.inj hfind2
    subst hc
    constructor
    · rw [ht2]
    · rw [ht2]
  · rw [hst2]
    show (st.tasks.map (fun t => if (t.id == id) = true then t2 else t)).map
        (fun t => (t.id, t.projectID, t.createdAt)) = _
    rw [List.map_map]
    apply List.map_congr_left
    intro u hu
    by_cases huid : (u.id == id) = true
    · have hup : u = current :=
        pairwise_ne_inj hinv.taskIdNodup u hu current hcmem (by rw [eq_of_beq huid, hcid])
      simp only [Function.comp_apply, if_pos huid]
      rw [ht2, hup]
    · simp only [Function.comp_apply, if_neg huid]

/-- C10 witness: moving demoTask2 between columns keeps its id, project and
created_at, and leaves the identity triple of every row unchanged. -/
theorem C10_updateTask_frame_witness :
    demoMoved.id = 2 ∧
    (∀ current, demoStore.tasks.find? (fun t => t.id == 2) = some current →
       demoMoved.projectID = current.projectID ∧ demoMoved.createdAt = current.createdAt) ∧
    demoMovedStore.tasks.map (fun t => (t.id, t.projectID, t.createdAt)) =
      demoStore.tasks.map (fun t => (t.id, t.projectID, t.createdAt)) :=
  C10_updateTask_frame demoStore demoStore_reachable 2 patchMove demoMoved demoMovedStore
    (by rfl)

/-- The task appended by creating a third todo task in the demo store. -/
def demoTask3 : Task :=
  { id := 3, projectID := 1, title := "Ship", description := "",
    status := "todo", position := 2, createdAt := 3, updatedAt := 3 }

/-- The demo store after appending demoTask3. -/
def demoGrownStore : Store :=
  { projects := [demoProject], tasks := [demoTask1, demoTask2, demoTask3],
    nextProjectID := 2, nextTaskID := 4, clock := 4 }

/-- C3: every position CreateTask or a column-moving UpdateTask assigns is a
nonnegative integer strictly above every position currently in the target
partition, and DeleteTask and DeleteProject only drop rows, leaving the
surviving rows (and their positions) untouched. -/
theorem C3_append_only_positions (st : Store) (hre : Reachable st) :
    (∀ tin t1 st1, st.CreateTask tin = (.ok t1, st1) →
       0 ≤ t1.position ∧
       ∀ u ∈ st.partitionTasks t1.projectID t1.status, u.position < t1.position) ∧
    (∀ id patch t2 st2 current, st.UpdateTask id patch = (.ok t2, st2) →
       st.tasks.find? (fun t => t.id == id) = some current →
       t2.status ≠ current.status →
       0 ≤ t2.position ∧
       ∀ u ∈ st.partitionTasks t2.projectID t2.status, u.position < t2.position) ∧
    (∀ id st1, st.DeleteTask id = (.ok (), st1) →
       st1.tasks = st.tasks.filter (fun t => !(t.id == id))) ∧
    (∀ id st1, st.DeleteProject id = (.ok (), st1) →
       st1.tasks = st.tasks.filter (fun t => !(t.projectID == id))) := by
  have hinv := reachable_inv hre
  refine ⟨?_, ?_, ?_, ?_⟩
  · intro tin t1 st1 hcreate
    obtain ⟨htitle, hproj, ht, hst⟩ := Store.CreateTask_ok hcreate
    have hpid : t1.projectID = tin.projectID := by
      rw [ht]
    have hpos : t1.position = st.nextPosition tin.projectID t1.status := by
      rw [ht]
    rw [hpos, hpid]
    exact ⟨Store.nextPosition_nonneg st _ _ hinv.posNonneg,
           Store.nextPosition_gt st _ _⟩
  · intro id patch t2 st2 current hupd hfind hne
    obtain ⟨c2, hfind2, ht2, hst2⟩ := Store.UpdateTask_ok hupd
    rw [hfind] at hfind2
    have hc : current = c2 := Option.some.inj hfind2
    subst hc
    have hpid : t2.projectID = current.projectID := by
      rw [ht2]
    have hstat : t2.status = Store.resolveStatus current patch := by
      rw [ht2]
    have hne2 : Store.resolveStatus current patch ≠ current.status := by
      rw [← hstat]
      exact hne
    have hpos : t2.position = st.nextPosition current.projectID (Store.resolveStatus current patch) := by
      rw [ht2]
      show (if (Store.resolveStatus current patch != current.status) = true then
          st.nextPosition current.projectID (Store.resolveStatus current patch)
        else current.position) = _
      rw [if_pos (bne_iff_ne.mpr hne2)]
    rw [hpos, hpid, hstat]
    exact ⟨Store.nextPosition_nonneg st _ _ hinv.posNonneg,
           Store.nextPosition_gt st _ _⟩
  · intro id st1 hdel
    rw [Store.DeleteTask_ok hdel]
  · intro id st1 hdel
    rw [Store.DeleteProject_ok hdel]

/-- C3 witness: appending a third todo task to the demo store assigns
position 2, nonnegative and above positions 0 and 1 already in the column. -/
theorem C3_append_only_positions_witness :
    0 ≤ demoTask3.position ∧
    ∀ u ∈ demoStore.partitionTasks demoTask3.projectID demoTask3.status,
      u.position < demoTask3.position :=
  (C3_append_only_positions demoStore demoStore_reachable).1
    { projectID := 1, title := "Ship", description := "", status := "todo" }
    demoTask3 demoGrownStore (by rfl)

/-- C4: an invalid status string is coerced to todo by CreateTask (the call
behaves exactly as if the status were todo) and silently ignored by
UpdateTask (the call behaves exactly as if no status were supplied); every
task either operation persists has a status in the fixed enumeration. -/
theorem C4_invalid_status (st : Store) (hre : Reachable st) (s : String)
    (hs : validTaskStatus s = false) :
    (∀ tin : Store.TaskInput, tin.status = s →
       st.CreateTask tin = st.CreateTask { tin with status := "todo" }) ∧
    (∀ tin t1 st1, tin.status = s → st.CreateTask tin = (.ok t1, st1) →
       t1.status = "todo") ∧
    (∀ id patch, patch.status = some s →
       st.UpdateTask id patch = st.UpdateTask id { patch with status := none }) ∧
    (∀ tin t1 st1, st.CreateTask tin = (.ok t1, st1) →
       validTaskStatus t1.status = true) ∧
    (∀ id patch t2 st2, st.UpdateTask id patch = (.ok t2, st2) →
       validTaskStatus t2.status = true) := by
  have hinv := reachable_inv hre
  refine ⟨?_, ?_, ?_, ?_, ?_⟩
  · intro tin htin
    unfold Store.CreateTask
    dsimp only
    rw [htin, hs]
    simp
  · intro tin t1 st1 htin hcreate
    obtain ⟨_, _, ht, _⟩ := Store.CreateTask_ok hcreate
    rw [ht]
    show (if validTaskStatus tin.status = true then tin.status else "todo") = "todo"
    rw [htin, hs]
    simp
  · intro id patch hps
    unfold Store.UpdateTask
    cases hfind : st.tasks.find? (fun t => t.id == id) with
    | none => rfl
    | some current =>
      dsimp only
      have hres : Store.resolveStatus current patch =
          Store.resolveStatus current { patch with status := none } := by
        unfold Store.resolveStatus
        rw [hps]
        dsimp only
        rw [hs]
        simp
      have hrt : Store.resolveTitle current { patch with status := none } =
          Store.resolveTitle current patch := rfl
      have hrd : Store.resolveDescription current { patch with status := none } =
          Store.resolveDescription current patch := rfl
      rw [hres, hrt, hrd]
  · intro tin t1 st1 hcreate
    obtain ⟨_, _, ht, _⟩ := Store.CreateTask_ok hcreate
    rw [ht]
    show validTaskStatus (if validTaskStatus tin.status = true then tin.status else "todo") = true
    by_cases hv : validTaskStatus tin.status = true
    · rw [if_pos hv]
      exact hv
    · rw [if_neg hv]
      decide
  · intro id patch t2 st2 hupd
    obtain ⟨current, hfind, ht2, hst2⟩ := Store.UpdateTask_ok hupd
    have hcmem : current ∈ st.tasks := List.mem_of_find?_eq_some hfind
    rw [ht2]
    exact resolveStatus_valid current patch (hinv.statusValid current hcmem)

/-- C4 witness: creating a task with status bogus behaves exactly like
creating it with status todo. -/
theorem C4_invalid_status_witness :
    demoStore.CreateTask { projectID := 1, title := "X", description := "", status := "bogus" } =
      demoStore.CreateTask { projectID := 1, title := "X", description := "", status := "todo" } :=
  (C4_invalid_status demoStore demoStore_reachable "bogus" (by decide)).1
    { projectID := 1, title := "X", description := "", status := "bogus" } rfl

/-- C6: CreateProject fails with a validation error on an empty trimmed name
and with a conflict error on a duplicate trimmed name, leaving the state
unchanged in both cases; in particular, after one call succeeds, a second
call with the same trimmed name fails with the conflict error. -/
theorem C6_createProject_errors (st : Store) (name color : String) (ridx : Nat) :
    (trimSpace name = "" →
       st.CreateProject name color ridx =
         (.error (.validationError "project name must not be empty"), st)) ∧
    (trimSpace name ≠ "" → (∃ p ∈ st.projects, p.name = trimSpace name) →
       st.CreateProject name color ridx =
         (.error (.conflictError "insert project: UNIQUE constraint failed"), st)) ∧
    (∀ p st1 name2 color2 ridx2, st.CreateProject name color ridx = (.ok p, st1) →
       trimSpace name2 = trimSpace name →
       st1.CreateProject name2 color2 ridx2 =
         (.error (.conflictError "insert project: UNIQUE constraint failed"), st1)) := by
  refine ⟨?_, ?_, ?_⟩
  · intro hname
    unfold Store.CreateProject
    rw [if_pos (by simp [hname])]
  · intro hname hex
    obtain ⟨p, hp, hpname⟩ := hex
    unfold Store.CreateProject
    rw [if_neg (by simp [hname]), if_pos (List.any_eq_true.mpr ⟨p, hp, by simp [hpname]⟩)]
  · intro p st1 name2 color2 ridx2 hcreate hname2
    obtain ⟨hname, hconf, hp, hst⟩ := Store.CreateProject_ok hcreate
    unfold Store.CreateProject
    rw [if_neg (by simp [hname2, hname])]
    rw [if_pos (List.any_eq_true.mpr ⟨p, ?_, ?_⟩)]
    · rw [hst]
      exact List.mem_append_right _ (List.mem_singleton.mpr rfl)
    · rw [hname2, hp]
      simp

/-- The store holding just the Launch project. -/
def stLaunch : Store :=
  { projects := [demoProject], tasks := [], nextProjectID := 2, nextTaskID := 1, clock := 1 }

/-- C6 witness: recreating Launch (with extra whitespace) fails with the
conflict error and leaves the store unchanged. -/
theorem C6_createProject_errors_witness :
    stLaunch.CreateProject " Launch " "red" 3 =
      (.error (.conflictError "insert project: UNIQUE constraint failed"), stLaunch) :=
  (C6_createProject_errors initStore "Launch" "" 0).2.2 demoProject stLaunch
    " Launch " "red" 3 (by rfl) (by decide)

/-- C7: DeleteProject removes every task of the deleted project, so the
task list of the project is empty afterwards, and in every reachable state each
task references an existing project. -/
theorem C7_no_orphan_tasks (st : Store) (hre : Reachable st) :
    (∀ P st1, st.DeleteProject P = (.ok (), st1) →
       st1.tasks.filter (fun t => t.projectID == P) = [] ∧ st1.ListTasks P = []) ∧
    (∀ t ∈ st.tasks, ∃ p ∈ st.projects, p.id = t.projectID) := by
  have hinv := reachable_inv hre
  refine ⟨?_, hinv.fk⟩
  intro P st1 hdel
  have hst := Store.DeleteProject_ok hdel
  have hfil : st1.tasks.filter (fun t => t.projectID == P) = [] := by
    rw [hst]
    show (st.tasks.filter (fun t => !(t.projectID == P))).filter (fun t => t.projectID == P) = []
    rw [List.filter_eq_nil_iff]
    intro t ht
    have := (List.mem_filter.mp ht).2
    simp at this ⊢
    exact this
  refine ⟨hfil, ?_⟩
  unfold Store.ListTasks
  rw [hfil]
  simp

/-- The demo store after deleting its only project. -/
def demoClearedStore : Store :=
  { projects := [], tasks := [], nextProjectID := 2, nextTaskID := 3, clock := 4 }

/-- C7 witness: deleting project 1 from the demo store leaves no task with
project_id 1 and an empty task listing. -/
theorem C7_no_orphan_tasks_witness :
    demoClearedStore.tasks.filter (fun t => t.projectID == 1) = [] ∧
    demoClearedStore.ListTasks 1 = [] :=
  (C7_no_orphan_tasks demoStore demoStore_reachable).1 1 demoClearedStore (by rfl)

/-! ### The ORDER BY comparison is a total preorder -/

lemma taskLE_iff (a b : Task) : Store.taskLE a b = true ↔
    (a.status < b.status ∨ (a.status = b.status ∧
      (a.position < b.position ∨ (a.position = b.position ∧ a.id ≤ b.id)))) := by
  unfold Store.taskLE
  simp [Bool.or_eq_true, Bool.and_eq_true, decide_eq_true_eq, beq_iff_eq]

lemma taskLE_total (a b : Task) : Store.taskLE a b = true ∨ Store.taskLE b a = true := by
  rw [taskLE_iff, taskLE_iff]
  rcases lt_trichotomy a.status b.status with h | h | h
  · exact Or.inl (Or.inl h)
  · rcases lt_trichotomy a.position b.position with h2 | h2 | h2
    · exact Or.inl (Or.inr ⟨h, Or.inl h2⟩)
    · rcases le_total a.id b.id with h3 | h3
      · exact Or.inl (Or.inr ⟨h, Or.inr ⟨h2, h3⟩⟩)
      · exact Or.inr (Or.inr ⟨h.symm, Or.inr ⟨h2.symm, h3⟩⟩)
    · exact Or.inr (Or.inr ⟨h.symm, Or.inl h2⟩)
  · exact Or.inr (Or.inl h)

lemma taskLE_trans (a b c : Task) (h1 : Store.taskLE a b = true)
    (h2 : Store.taskLE b c = true) : Store.taskLE a c = true := by
  rw [taskLE_iff] at h1 h2 ⊢
  rcases h1 with h1 | ⟨hs1, hp1⟩
  · rcases h2 with h2 | ⟨hs2, hp2⟩
    · exact Or.inl (lt_trans h1 h2)
    · exact Or.inl (by rw [← hs2]; exact h1)
  · rcases h2 with h2 | ⟨hs2, hp2⟩
    · exact Or.inl (by rw [hs1]; exact h2)
    · refine Or.inr ⟨by rw [hs1, hs2], ?_⟩
      rcases hp1 with hp1 | ⟨hq1, hi1⟩
      · rcases hp2 with hp2 | ⟨hq2, hi2⟩
        · exact Or.inl (lt_trans hp1 hp2)
        · exact Or.inl (by rw [← hq2]; exact hp1)
      · rcases hp2 with hp2 | ⟨hq2, hi2⟩
        · exact Or.inl (by rw [hq1]; exact hp2)
        · exact Or.inr ⟨by rw [hq1, hq2], le_trans hi1 hi2⟩

/-- C5: ListTasks(project_id) returns exactly the tasks of the project,
sorted by the lexicographic triple (status, position, id). -/
theorem C5_listTasks_order (st : Store) (pid : Int) :
    List.Perm (st.ListTasks pid) (st.tasks.filter (fun t => t.projectID == pid)) ∧
    (∀ t, t ∈ st.ListTasks pid ↔ (t ∈ st.tasks ∧ t.projectID = pid)) ∧
    (st.ListTasks pid).Pairwise (fun a b =>
      a.status < b.status ∨ (a.status = b.status ∧
        (a.position < b.position ∨ (a.position = b.position ∧ a.id ≤ b.id)))) := by
  refine ⟨List.mergeSort_perm _ _, ?_, ?_⟩
  · intro t
    unfold Store.ListTasks
    rw [List.mem_mergeSort, List.mem_filter]
    simp [beq_iff_eq]
  · have htot : ∀ a b : Task, (Store.taskLE a b || Store.taskLE b a) = true := by
      intro a b
      rw [Bool.or_eq_true]
      exact taskLE_total a b
    have h := List.sorted_mergeSort taskLE_trans htot
      (st.tasks.filter (fun t => t.projectID == pid))
    exact h.imp (fun hab => (taskLE_iff _ _).mp hab)

/-- C9: ListProjects returns all projects ordered by created_at ascending;
in every reachable state this is exactly the stable creation order, with
created_at strictly increasing along the returned list. -/
theorem C9_listProjects_order (st : Store) (hre : Reachable st) :
    st.ListProjects = st.projects ∧
    st.ListProjects.Pairwise (fun p q => p.createdAt < q.createdAt) := by
  have hinv := reachable_inv hre
  have hsorted : st.projects.Pairwise
      (fun p q => (decide (p.createdAt ≤ q.createdAt)) = true) :=
    hinv.projSorted.imp (fun h => decide_eq_true (le_of_lt h))
  have heq : st.ListProjects = st.projects := List.mergeSort_of_sorted hsorted
  exact ⟨heq, by rw [heq]; exact hinv.projSorted⟩

/-- C9 witness: the demo store lists its single project in creation order. -/
theorem C9_listProjects_order_witness :
    demoStore.ListProjects = demoStore.projects ∧
    demoStore.ListProjects.Pairwise (fun p q => p.createdAt < q.createdAt) :=
  C9_listProjects_order demoStore demoStore_reachable

end Todo
